import Mathlib

/-!
Verification development for the AUTOSAR call-tree extraction engine.
The engine itself is specified in `spec.md`; the repository ships only its
C test fixtures, so every definition below is a shallow embedding built
from the specification text (see the doc comments).  Names of callers and
callees are modelled as lists of characters.
-/

namespace CallTree

set_option maxRecDepth 1000000

set_option maxHeartbeats 4000000

abbrev Name := List Char

/-- Characters that may occur inside a C identifier. -/
def isIdentChar (c : Char) : Bool := c.isAlpha || c.isDigit || c = '_'

/-- Horizontal whitespace. -/
def isWsC (c : Char) : Bool := c = ' ' || c = '\t' || c = '\r'

/-- A line consisting only of whitespace. -/
def isBlank (l : Name) : Bool := l.all isWsC

/-- Modelled from the spec: control-flow keywords that are never recorded
as callee names (section 4.4). -/
def ctrlKwNames : List Name :=
  [("if".data), ("for".data), ("while".data), ("switch".data),
   ("return".data), ("sizeof".data)]

/-- Modelled from the spec: known/primitive type names used to exclude
`(type)expr` casts and type-applied-to-value constructs (section 4.4). -/
def typeNames : List Name :=
  [("void".data), ("int".data), ("char".data), ("long".data), ("short".data),
   ("float".data), ("double".data), ("uint8".data), ("uint16".data),
   ("uint32".data), ("uint64".data), ("sint8".data), ("sint16".data),
   ("sint32".data), ("sint64".data), ("boolean".data), ("float32".data),
   ("float64".data), ("Std_ReturnType".data)]

/-- Modelled from the spec: AUTOSAR wrapper-macro names (section 4.2/4.4). -/
def wrapperNames : List Name :=
  [("FUNC".data), ("FUNC_P2VAR".data), ("FUNC_P2CONST".data), ("VAR".data),
   ("P2VAR".data), ("P2CONST".data), ("CONST".data), ("P2FUNC".data)]

/-- Qualifiers recognized on a signature (section 4.2). -/
def qualNames : List Name := [("static".data), ("inline".data), ("STATIC".data)]

/-- Other reserved C keywords, rejected as candidate function names. -/
def cKeywordNames : List Name :=
  [("static".data), ("inline".data), ("const".data), ("struct".data),
   ("union".data), ("enum".data), ("typedef".data), ("else".data),
   ("do".data), ("case".data), ("default".data), ("break".data),
   ("continue".data), ("goto".data), ("volatile".data), ("extern".data),
   ("register".data), ("unsigned".data), ("signed".data)]

/-- Identifiers excluded from being call candidates (section 4.4):
control keywords, known type names, wrapper macros. -/
def callExcludedNames : List Name := ctrlKwNames ++ typeNames ++ wrapperNames

/-- Modelled from the spec: the RTE naming convention — a reserved name
prefix identifies Runtime-Environment calls (section 4.6). -/
def startsWithRte : Name → Bool
  | 'R' :: 't' :: 'e' :: '_' :: _ => true
  | _ => false

/-- Header kinds that mark a scope frame (section 4.3). -/
inductive HdrKind
  | cond
  | loop
deriving DecidableEq

/-- Line-level tokens produced by the character scanner: a call candidate,
a control-header keyword, and the two braces. -/
inductive Tok
  | call (n : Name)
  | kw (k : HdrKind)
  | lb
  | rb
deriving DecidableEq

/-- Scanner mode while walking the characters of a line (section 4.1):
normal code, a possible comment opener, line comment, block comment
(`bstar` = just saw `*` inside one), string literal (`sesc` = after a
backslash), character literal (`cesc` = after a backslash). -/
inductive Mode
  | norm
  | slash
  | lcom
  | bcom
  | bstar
  | strm
  | sesc
  | chrm
  | cesc
deriving DecidableEq

structure LineSt where
  mode : Mode
  acc : Name
  toks : List Tok
deriving DecidableEq

/-- Modelled from the spec: classify a finished identifier (section 4.4).
`if` and `for`/`while` become header keywords; an identifier immediately
followed by `(` that is not excluded is a call candidate. -/
def flushTok (acc : Name) (next : Option Char) : List Tok :=
  let id := acc.reverse
  if id.isEmpty then []
  else if id = ("if".data) then [Tok.kw HdrKind.cond]
  else if id = ("for".data) ∨ id = ("while".data) then [Tok.kw HdrKind.loop]
  else if next = some '(' ∧ ¬ id ∈ callExcludedNames then [Tok.call id]
  else []

/-- One character in `norm` mode. -/
def normChar (st : LineSt) (c : Char) : LineSt :=
  if isIdentChar c then { st with mode := Mode.norm, acc := c :: st.acc }
  else
    let ts := st.toks ++ flushTok st.acc (some c)
    if c = '{' then ⟨Mode.norm, [], ts ++ [Tok.lb]⟩
    else if c = '}' then ⟨Mode.norm, [], ts ++ [Tok.rb]⟩
    else if c = '"' then ⟨Mode.strm, [], ts⟩
    else if c = '\'' then ⟨Mode.chrm, [], ts⟩
    else if c = '/' then ⟨Mode.slash, [], ts⟩
    else ⟨Mode.norm, [], ts⟩

/-- Modelled from the spec: the per-character step of the line scanner —
comment stripping (section 4.1), literal protection (sections 4.1/4.4). -/
def lineStep (st : LineSt) (c : Char) : LineSt :=
  match st.mode with
  | Mode.norm => normChar st c
  | Mode.slash =>
      if c = '/' then ⟨Mode.lcom, [], st.toks⟩
      else if c = '*' then ⟨Mode.bcom, [], st.toks⟩
      else normChar ⟨Mode.norm, st.acc, st.toks⟩ c
  | Mode.lcom => st
  | Mode.bcom => if c = '*' then ⟨Mode.bstar, [], st.toks⟩ else st
  | Mode.bstar =>
      if c = '/' then ⟨Mode.norm, [], st.toks⟩
      else if c = '*' then st
      else ⟨Mode.bcom, [], st.toks⟩
  | Mode.strm =>
      if c = '"' then ⟨Mode.norm, [], st.toks⟩
      else if c = '\\' then ⟨Mode.sesc, [], st.toks⟩
      else st
  | Mode.sesc => ⟨Mode.strm, [], st.toks⟩
  | Mode.chrm =>
      if c = '\'' then ⟨Mode.norm, [], st.toks⟩
      else if c = '\\' then ⟨Mode.cesc, [], st.toks⟩
      else st
  | Mode.cesc => ⟨Mode.chrm, [], st.toks⟩

def initLineSt (bc : Bool) : LineSt := ⟨if bc then Mode.bcom else Mode.norm, [], []⟩

/-- Tokenize one physical line; `bc` says whether the line starts inside a
block comment, and the returned flag whether the next one does. -/
def lineToks (bc : Bool) (l : Name) : List Tok × Bool :=
  let st := l.foldl lineStep (initLineSt bc)
  (st.toks ++ flushTok st.acc none,
   st.mode = Mode.bcom ∨ st.mode = Mode.bstar)

/-- A word is type-shaped when made of identifier characters and `*`. -/
def typeWordOk (w : Name) : Bool :=
  ¬ w.isEmpty ∧ w.all (fun c => isIdentChar c || c = '*')

/-- A valid candidate function name: identifier shaped, not a keyword,
primitive type or wrapper macro (section 4.2). -/
def validName (id : Name) : Bool :=
  match id with
  | [] => false
  | c :: _ =>
      (c.isAlpha || c = '_') && id.all isIdentChar &&
      ¬ (id ∈ ctrlKwNames ∨ id ∈ typeNames ∨ id ∈ wrapperNames ∨
         id ∈ cKeywordNames)

def splitWsGo : List Char → List Char → List Name
  | [], acc => if acc.isEmpty then [] else [acc.reverse]
  | c :: rest, acc =>
      if isWsC c then
        (if acc.isEmpty then splitWsGo rest [] else acc.reverse :: splitWsGo rest [])
      else splitWsGo rest (c :: acc)

/-- Split a line into whitespace-separated words. -/
def splitWs (cs : Name) : List Name := splitWsGo cs []

/-- The characters after the last `)` of a line segment. -/
def afterLastClose (cs : Name) : Name :=
  (cs.reverse.takeWhile (fun c => ¬ c = ')')).reverse

def hasClose (cs : Name) : Bool := cs.any (fun c => c = ')')

structure Sig where
  name : Name
  quals : List Name
deriving DecidableEq

/-- Modelled from the spec: plain-C signature recognition on one logical
line (section 4.2) — optional qualifiers, return type, name, parenthesized
parameter list; a definition must not end in `;` (only whitespace or the
body-opening brace may follow the closing parenthesis). -/
def parseSigDef (line : Name) : Option Sig :=
  let pre := line.takeWhile (fun c => ¬ c = '(')
  let post := line.dropWhile (fun c => ¬ c = '(')
  match post with
  | [] => none
  | _ :: afterP =>
    if hasClose afterP = false then none
    else if (afterLastClose afterP).all (fun c => isWsC c || c = '{') = false then none
    else
      match (splitWs pre).reverse with
      | [] => none
      | nm :: restRev =>
        if restRev.isEmpty then none
        else if validName nm = false then none
        else if restRev.all typeWordOk = false then none
        else some ⟨nm, restRev.reverse.filter (fun w => decide (w ∈ qualNames))⟩

/-- Modelled from the spec: a backtracking candidate line — identifier,
whitespace and `*` only, not blank (section 4.2). -/
def looksLikeBareType (l : Name) : Bool :=
  ¬ isBlank l ∧ l.all (fun c => isIdentChar c || c = '*' || isWsC c)

def tryRecognizeGo : List Name → Name → Option Sig
  | [], _ => none
  | p :: ps, acc =>
      if looksLikeBareType p then
        match parseSigDef (p ++ (' ' :: acc)) with
        | some s => some s
        | none => tryRecognizeGo ps (p ++ (' ' :: acc))
      else none

/-- Modelled from the spec: signature recognition with bounded backtracking
over immediately preceding lines (section 4.2); `prev` holds the preceding
non-blank top-level lines, most recent first. -/
def tryRecognize (prev : List Name) (cur : Name) : Option Sig :=
  match parseSigDef cur with
  | some s => some s
  | none => tryRecognizeGo prev cur

structure Frame where
  func : Option Name
  cond : Bool
  loop : Bool
deriving DecidableEq

structure CallEdge where
  callee : Name
  cond : Bool
  loop : Bool
  rte : Bool
  count : Nat
deriving DecidableEq

structure ScanSt where
  frames : List Frame
  pending : Option HdrKind
  pendingFn : Option Name
  prevLines : List Name
  recs : List (Name × List CallEdge)
  inBC : Bool
deriving DecidableEq

def initSt : ScanSt := ⟨[], none, none, [], [], false⟩

/-- Modelled from the spec: the per-caller aggregation step (section 4.5).
The first sighting of a callee creates its edge with the current flags and
occurrence count 1; a repeat sighting merges — the conditional flag stays
true only while every occurrence was conditional, the loop flag is ORed,
and the occurrence count is incremented.  The RTE flag is fixed by the
callee's name prefix (section 4.6). -/
def addCall : List CallEdge → Name → Bool → Bool → List CallEdge
  | [], c, cd, lp => [⟨c, cd, lp, startsWithRte c, 1⟩]
  | e :: es, c, cd, lp =>
      if e.callee = c then
        ⟨e.callee, e.cond && cd, e.loop || lp, e.rte, e.count + 1⟩ :: es
      else e :: addCall es c cd lp

/-- Insert a fresh FunctionRecord if the identity is new; an exact
duplicate collapses into the existing record (section 4.2). -/
def insertRec : List (Name × List CallEdge) → Name → List (Name × List CallEdge)
  | [], f => [(f, [])]
  | r :: rs, f => if r.1 = f then r :: rs else r :: insertRec rs f

/-- Record one sighting of callee `c` under caller `f`. -/
def updRec : List (Name × List CallEdge) → Name → Name → Bool → Bool →
    List (Name × List CallEdge)
  | [], f, c, cd, lp => [(f, addCall [] c cd lp)]
  | r :: rs, f, c, cd, lp =>
      if r.1 = f then (r.1, addCall r.2 c cd lp) :: rs
      else r :: updRec rs f c cd lp

def pendCond (p : Option HdrKind) : Bool := p = some HdrKind.cond

def pendLoop (p : Option HdrKind) : Bool := p = some HdrKind.loop

/-- Modelled from the spec: one scope/aggregation step per token
(sections 4.3–4.5).  `{` pushes a frame inheriting the enclosing function
and accumulating the conditional/loop kind of a pending header; `}` pops;
a call candidate inside a function-body frame is recorded with the
effective flags of its enclosing frames (a pending braceless header counts
as an enclosing conditional/loop). -/
def tokStep (st : ScanSt) (t : Tok) : ScanSt :=
  match t with
  | Tok.kw k => { st with pending := some k }
  | Tok.lb =>
      match st.frames with
      | [] =>
          match st.pendingFn with
          | some f =>
              { st with frames := [⟨some f, false, false⟩], pending := none,
                        pendingFn := none, prevLines := [],
                        recs := insertRec st.recs f }
          | none =>
              { st with frames := [⟨none, false, false⟩], pending := none,
                        prevLines := [] }
      | p :: _ =>
          { st with
              frames := ⟨p.func, p.cond || pendCond st.pending,
                         p.loop || pendLoop st.pending⟩ :: st.frames,
              pending := none }
  | Tok.rb => { st with frames := st.frames.tail, pending := none }
  | Tok.call c =>
      match st.frames with
      | [] => st
      | f :: _ =>
          match f.func with
          | none => st
          | some fn =>
              { st with
                  recs := updRec st.recs fn c
                    (f.cond || pendCond st.pending)
                    (f.loop || pendLoop st.pending) }

def hasCallTok (ts : List Tok) : Bool :=
  ts.any (fun t => match t with | Tok.call _ => true | _ => false)

/-- Modelled from the spec: process one physical line — tokenize, attempt
top-level signature recognition with backtracking, fold the tokens through
the scope tracker, and, when a braceless header's pending kind was consumed
by a call on this line, clear it (sections 4.2–4.5, 7). -/
def scanLine (st : ScanSt) (line : Name) : ScanSt :=
  let tb := lineToks st.inBC line
  let st1 :=
    if st.frames.isEmpty ∧ st.inBC = false then
      match tryRecognize st.prevLines line with
      | some s => { st with pendingFn := some s.name, prevLines := [] }
      | none =>
          if isBlank line then st
          else { st with prevLines := line :: st.prevLines }
    else st
  let st2 := tb.1.foldl tokStep st1
  let st3 := if hasCallTok tb.1 then { st2 with pending := none } else st2
  { st3 with inBC := tb.2 }

/-- Scan a whole file, given as its list of physical lines. -/
def scanAll (lines : List Name) : ScanSt := lines.foldl scanLine initSt

def scanStrs (lines : List String) : ScanSt := scanAll (lines.map String.data)

/-- Modelled from the spec: the per-callee aggregation of a sequence of
sightings (conditional flag, loop flag) of one callee under one caller
(section 4.5), expressed with `addCall`. -/
def aggregate (c : Name) (ss : List (Bool × Bool)) : List CallEdge :=
  ss.foldl (fun es s => addCall es c s.1 s.2) []

/-- The directed call graph: adjacency from caller name to callee names
(section 4.7). -/
structure Graph where
  adj : List (Name × List Name)
deriving DecidableEq

def lookupAdj : List (Name × List Name) → Name → List Name
  | [], _ => []
  | r :: rs, n => if r.1 = n then r.2 else lookupAdj rs n

/-- Successors of a node; an unresolved callee is a leaf (section 3). -/
def succsOf (g : Graph) (n : Name) : List Name := lookupAdj g.adj n

def nodesOf (g : Graph) : List Name := g.adj.map (fun r => r.1)

/-- Every name occurring in the graph, deduplicated. -/
def univOf (g : Graph) : List Name :=
  (nodesOf g ++ (g.adj.map (fun r => r.2)).flatten).dedup

/-- Lexicographic strict order on names. -/
def ltName : Name → Name → Bool
  | [], [] => false
  | [], _ :: _ => true
  | _ :: _, [] => false
  | a :: as, b :: bs => if a < b then true else if b < a then false else ltName as bs

def minN : Name → List Name → Name
  | d, [] => d
  | d, x :: xs => minN (if ltName x d then x else d) xs

def idxOfC : List Name → Name → Nat
  | [], _ => 0
  | x :: xs, n => if x = n then 0 else idxOfC xs n + 1

def rotN (l : List Name) (k : Nat) : List Name := l.drop k ++ l.take k

/-- Modelled from the spec: canonicalize a cycle by rotating it to start
at its lexicographically smallest member (section 4.7). -/
def canon : List Name → List Name
  | [] => []
  | h :: t => rotN (h :: t) (idxOfC (h :: t) (minN h t))

/-- The path segment from the first occurrence of `n` to the end
(section 4.7: the reported cycle on meeting an on-path node). -/
def extractCycle (path : List Name) (n : Name) : List Name :=
  path.dropWhile (fun x => decide (¬ x = n))

structure DfsSt where
  black : List Name
  cycles : List (List Name)
deriving DecidableEq

/-- Error-propagating sequencing of traversal steps. -/
def exBind (a : Except Unit DfsSt) (f : DfsSt → Except Unit DfsSt) :
    Except Unit DfsSt :=
  match a with
  | Except.error e => Except.error e
  | Except.ok s => f s

/-- Modelled from the spec: depth-first traversal with on-path/fully-visited
marking (section 4.7).  An edge into an on-path node reports (once, in
canonical form) the cycle formed by the path segment from that node to the
current node; an edge into a fully-visited node reports nothing.  Fuel
bounds the recursion depth; fuel exhaustion is the (unreachable) failure
outcome. -/
def visit (fuel : Nat) (g : Graph) : List Name → DfsSt → Name → Except Unit DfsSt :=
  match fuel with
  | 0 => fun _ _ _ => Except.error ()
  | f + 1 => fun path st n =>
      if n ∈ st.black then Except.ok st
      else if n ∈ path then
        Except.ok
          (if canon (extractCycle path n) ∈ st.cycles then st
           else { st with cycles := st.cycles ++ [canon (extractCycle path n)] })
      else
        exBind
          ((succsOf g n).foldl
            (fun acc m => exBind acc (fun st1 => visit f g (path ++ [n]) st1 m))
            (Except.ok st))
          (fun st1 => Except.ok { st1 with black := n :: st1.black })

/-- Run the traversal from every node in turn (section 4.7). -/
def visitAll (fuel : Nat) (g : Graph) : DfsSt → List Name → Except Unit DfsSt
  | st, [] => Except.ok st
  | st, n :: ns =>
      match visit fuel g [] st n with
      | Except.error e => Except.error e
      | Except.ok st1 => visitAll fuel g st1 ns

/-- Fuel bound: one more than the number of distinct names in the graph. -/
def fuelB (g : Graph) : Nat := (univOf g).length + 1

def detectCyclesE (g : Graph) : Except Unit (List (List Name)) :=
  match visitAll (fuelB g) g ⟨[], []⟩ (nodesOf g) with
  | Except.error e => Except.error e
  | Except.ok st => Except.ok st.cycles

def detectCycles (g : Graph) : List (List Name) :=
  match detectCyclesE g with
  | Except.ok cs => cs
  | Except.error _ => []

/-- Assemble the graph from the scanned FunctionRecord data (section 4.7). -/
def graphOf (st : ScanSt) : Graph :=
  ⟨st.recs.map (fun r => (r.1, r.2.map (fun e => e.callee)))⟩

/-- The call-candidate names among a line's tokens. -/
def callNamesOf (ts : List Tok) : List Name :=
  ts.filterMap (fun t => match t with | Tok.call n => some n | _ => none)

/-- Edge lists maintained by the scanner: callee keys are duplicate-free
and no callee is a control keyword. -/
def edgesOk (es : List CallEdge) : Prop :=
  (es.map CallEdge.callee).Nodup ∧ ∀ e ∈ es, ¬ e.callee ∈ ctrlKwNames

def recsOk (rs : List (Name × List CallEdge)) : Prop :=
  ∀ r ∈ rs, edgesOk r.2

/-- Number of graph names not yet on the DFS path; the termination measure
promised by the spec's visited/on-path marking argument (section 7). -/
def countFree (g : Graph) (path : List Name) : Nat :=
  ((univOf g).filter (fun x => decide (¬ x ∈ path))).length

/-- Fixture `coverage_remaining.c`, function `test_rte_update_conditional`:
an RTE callee sighted unconditionally and then inside an `if` block. -/
def rteUpdCondLines : List String :=
  [ "void test_rte_update_conditional(void)",
    "\x7b",
    "    Rte_Call_StartOperation();  // First call - non-conditional",
    "",
    "    if (mode == 0x05)",
    "    \x7b",
    "        Rte_Call_StartOperation();  // Same call - should update with conditional flag",
    "    \x7d",
    "\x7d" ]

/-- Fixture `coverage_rte_calls.c`, function `test_regular_call_duplicate`:
the same callee twice in one body. -/
def dupCallLines : List String :=
  [ "void test_regular_call_duplicate(void) \x7b",
    "    Helper_Function();",
    "    Helper_Function();",
    "\x7d" ]

/-- Fixture `coverage_nested_blocks.c`, function `test_loop_in_if`:
a loop nested inside a conditional. -/
def loopInIfLines : List String :=
  [ "void test_loop_in_if(void) \x7b",
    "    if (mode == 0x05) \x7b",
    "        for (i = 0; i < 10; i++) \x7b",
    "            Process_Element();",
    "        \x7d",
    "    \x7d",
    "\x7d" ]

/-- Fixture `coverage_remaining.c`, function `test_rte_conditional_loop`:
a conditional nested inside a loop, around an RTE call. -/
def rteCondLoopLines : List String :=
  [ "void test_rte_conditional_loop(void)",
    "\x7b",
    "    for (int i = 0; i < 10; i++)",
    "    \x7b",
    "        if (x > 0)",
    "        \x7b",
    "            Rte_Call_Operation();  // Should have both conditional and loop flags",
    "        \x7d",
    "    \x7d",
    "\x7d" ]

/-- Fixture `with_function_calls.c`, function `function_with_strings`:
call-shaped text inside string literals. -/
def strLitLines : List String :=
  [ "void function_with_strings(void)",
    "\x7b",
    "    printf(\"This has (parentheses) in it\\n\");",
    "    log_message(\"Value: %d\", get_value());",
    "\x7d" ]

/-- The printf line of `function_with_strings`. -/
def printfLine : Name :=
  ("    printf(\"This has (parentheses) in it\\n\");".data)

/-- Fixture `with_function_calls.c`, function `control_structures`:
all control keywords alongside real calls. -/
def ctrlStructLines : List String :=
  [ "void control_structures(uint32 value)",
    "\x7b",
    "    if (value > 10) \x7b",
    "        handle_large_value();",
    "    \x7d else \x7b",
    "        handle_small_value();",
    "    \x7d",
    "",
    "    for (uint32 i = 0; i < value; i++) \x7b",
    "        process_iteration(i);",
    "    \x7d",
    "",
    "    while (value > 0) \x7b",
    "        value = decrement_value(value);",
    "    \x7d",
    "",
    "    switch (value) \x7b",
    "        case 1:",
    "            handle_case_1();",
    "            break;",
    "        case 2:",
    "            handle_case_2();",
    "            break;",
    "        default:",
    "            handle_default();",
    "            break;",
    "    \x7d",
    "\x7d" ]

/-- Malformed-header fixtures (`coverage_if_conditions.c`,
`coverage_loops.c`, `coverage_remaining.c`) followed by a well-formed
function. -/
def malformedLines : List String :=
  [ "void test_if_without_paren(void) \x7b",
    "    if \x7b",
    "        // This is unusual but should handle gracefully",
    "        do_something();",
    "    \x7d",
    "\x7d",
    "",
    "void test_for_without_paren(void) \x7b",
    "    for \x7b",
    "        Process_Element();",
    "    \x7d",
    "\x7d",
    "",
    "void test_while_no_closing_paren(void)",
    "\x7b",
    "    while (count > 0 &&",
    "           index < limit",
    "    \x7b",
    "        Func1();",
    "    \x7d",
    "\x7d",
    "",
    "void after_malformed(void)",
    "\x7b",
    "    Later_Call();",
    "\x7d" ]

/-- Fixture `coverage_if_fallback.c`, function `test_if_fallback_no_brace`:
an if statement whose body is a braceless call. -/
def ifFallbackLines : List String :=
  [ "void test_if_fallback_no_brace(void)",
    "\x7b",
    "    if (x > 0)",
    "        Func1();",
    "\x7d" ]

/-- Fixture `coverage_multiline_backtrack.c`, function `MyFunction`:
return type, name and parameter list on three separate lines. -/
def multiBacktrackLines : List String :=
  [ "const uint32_t",
    "MyFunction",
    "(uint8 param1, uint16 param2)",
    "\x7b",
    "    return param1 + param2;",
    "\x7d" ]

/-- The same signature as `multiBacktrackLines` on a single line. -/
def singleBacktrackLines : List String :=
  [ "const uint32_t MyFunction (uint8 param1, uint16 param2)",
    "\x7b",
    "    return param1 + param2;",
    "\x7d" ]

/-- Fixture `circular_functions.c`: a two-node cycle, an entry edge into
it, and a separate three-node cycle. -/
def circFixtureLines : List String :=
  [ "/* Test fixture for circular dependency detection */",
    "",
    "// Function A calls Function B",
    "void Circular_A(void)",
    "\x7b",
    "    Circular_B();",
    "\x7d",
    "",
    "// Function B calls Function A (creates circular dependency)",
    "void Circular_B(void)",
    "\x7b",
    "    Circular_A();",
    "\x7d",
    "",
    "// Function C calls Function A (to reach the cycle)",
    "void Start_Circular(void)",
    "\x7b",
    "    Circular_A();",
    "\x7d",
    "",
    "// Separate cycle with 3 functions",
    "void Cycle_X(void)",
    "\x7b",
    "    Cycle_Y();",
    "\x7d",
    "",
    "void Cycle_Y(void)",
    "\x7b",
    "    Cycle_Z();",
    "\x7d",
    "",
    "void Cycle_Z(void)",
    "\x7b",
    "    Cycle_X();",
    "\x7d" ]

/-- Fixture `with_function_calls.c`, function `recursive_function`:
a direct self-call. -/
def selfRecLines : List String :=
  [ "void recursive_function(uint32 depth)",
    "\x7b",
    "    if (depth > 0) \x7b",
    "        recursive_function(depth - 1);",
    "    \x7d",
    "\x7d" ]

/-- Merging further sightings into a single existing edge for the same
callee keeps one edge, ANDing the conditional flag, ORing the loop flag,
and counting every sighting. -/

lemma aggregate_go (c : Name) :
    ∀ (rest : List (Bool × Bool)) (cd lp rt : Bool) (k : Nat),
      rest.foldl (fun es s => addCall es c s.1 s.2) [⟨c, cd, lp, rt, k⟩] =
        [⟨c, cd && rest.all (fun s => s.1), lp || rest.any (fun s => s.2), rt,
          k + rest.length⟩] := by
  intro rest
  induction rest with
  | nil => simp
  | cons s rest ih =>
      intro cd lp rt k
      rw [List.foldl_cons]
      have h1 : addCall [⟨c, cd, lp, rt, k⟩] c s.1 s.2 =
          [⟨c, cd && s.1, lp || s.2, rt, k + 1⟩] := by
        simp [addCall]
      rw [h1, ih]
      have h2 : k + 1 + rest.length = k + (rest.length + 1) := by omega
      rw [h2, Bool.and_assoc, Bool.or_assoc]
      simp

lemma aggregate_cons (c : Name) (s : Bool × Bool) (rest : List (Bool × Bool)) :
    aggregate c (s :: rest) =
      [⟨c, s.1 && rest.all (fun x => x.1), s.2 || rest.any (fun x => x.2),
        startsWithRte c, 1 + rest.length⟩] := by
  simp [aggregate, addCall, aggregate_go]

lemma aggregate_mixed (c : Name) (ss : List (Bool × Bool))
    (h : ∃ s ∈ ss, s.1 = false) :
    aggregate c ss =
      [⟨c, false, ss.any (fun x => x.2), startsWithRte c, ss.length⟩] := by
  obtain ⟨s0, hs0, hfalse⟩ := h
  cases ss with
  | nil => cases hs0
  | cons a rest =>
      rw [aggregate_cons]
      have hall : (a.1 && rest.all (fun x => x.1)) = ((a :: rest).all (fun x => x.1)) := by
        simp
      have hallf : ((a :: rest).all (fun x => x.1)) = false := by
        rw [List.all_eq_false]
        exact ⟨s0, hs0, by simp [hfalse]⟩
      rw [hall, hallf]
      simp [Nat.add_comm]

lemma addCall_callees (c : Name) (cd lp : Bool) :
    ∀ es : List CallEdge,
      (addCall es c cd lp).map CallEdge.callee =
        if c ∈ es.map CallEdge.callee then es.map CallEdge.callee
        else es.map CallEdge.callee ++ [c] := by
  intro es
  induction es with
  | nil => simp [addCall]
  | cons e es ih =>
      by_cases h : e.callee = c
      · subst h
        simp [addCall]
      · simp only [addCall, if_neg h, List.map_cons, ih, List.mem_cons]
        by_cases hm : c ∈ List.map CallEdge.callee es
        · simp [hm, Ne.symm h]
        · simp [hm, Ne.symm h]

lemma addCall_mem (c : Name) (cd lp : Bool) :
    ∀ (es : List CallEdge) (e' : CallEdge), e' ∈ addCall es c cd lp →
      e'.callee = c ∨ ∃ e ∈ es, e'.callee = e.callee := by
  intro es
  induction es with
  | nil =>
      intro e' h
      simp only [addCall, List.mem_singleton] at h
      subst h
      exact Or.inl rfl
  | cons e es ih =>
      intro e' h
      by_cases hc : e.callee = c
      · simp only [addCall, if_pos hc, List.mem_cons] at h
        rcases h with h | h
        · subst h; exact Or.inl hc
        · exact Or.inr ⟨e', List.mem_cons_of_mem e h, rfl⟩
      · simp only [addCall, if_neg hc, List.mem_cons] at h
        rcases h with h | h
        · subst h; exact Or.inr ⟨e', List.mem_cons_self e' es, rfl⟩
        · rcases ih e' h with h1 | ⟨e2, he2, h2⟩
          · exact Or.inl h1
          · exact Or.inr ⟨e2, List.mem_cons_of_mem e he2, h2⟩

lemma edgesOk_addCall {es : List CallEdge} {c : Name} (cd lp : Bool)
    (h : edgesOk es) (hc : ¬ c ∈ ctrlKwNames) : edgesOk (addCall es c cd lp) := by
  constructor
  · rw [addCall_callees]
    split
    · exact h.1
    · next hm =>
        simp [List.nodup_append, h.1, hm]
  · intro e' he'
    rcases addCall_mem c cd lp es e' he' with h1 | ⟨e2, he2, h2⟩
    · rw [h1]; exact hc
    · rw [h2]; exact h.2 e2 he2

lemma recsOk_insertRec {rs : List (Name × List CallEdge)} (f : Name)
    (h : recsOk rs) : recsOk (insertRec rs f) := by
  induction rs with
  | nil =>
      intro r hr
      simp only [insertRec, List.mem_singleton] at hr
      subst hr
      exact ⟨List.nodup_nil, by intro e he; cases he⟩
  | cons r0 rs ih =>
      intro r hr
      by_cases hc : r0.1 = f
      · simp only [insertRec, if_pos hc] at hr
        exact h r hr
      · simp only [insertRec, if_neg hc, List.mem_cons] at hr
        rcases hr with hr | hr
        · exact h r (by rw [hr]; exact List.mem_cons_self r0 rs)
        · exact ih (fun x hx => h x (List.mem_cons_of_mem r0 hx)) r hr

lemma recsOk_updRec {rs : List (Name × List CallEdge)} (f c : Name)
    (cd lp : Bool) (h : recsOk rs) (hc : ¬ c ∈ ctrlKwNames) :
    recsOk (updRec rs f c cd lp) := by
  induction rs with
  | nil =>
      intro r hr
      simp only [updRec, List.mem_singleton] at hr
      subst hr
      exact edgesOk_addCall cd lp ⟨List.nodup_nil, by intro e he; cases he⟩ hc
  | cons r0 rs ih =>
      intro r hr
      by_cases he : r0.1 = f
      · simp only [updRec, if_pos he, List.mem_cons] at hr
        rcases hr with hr | hr
        · rw [hr]
          exact edgesOk_addCall cd lp (h r0 (List.mem_cons_self r0 rs)) hc
        · exact h r (List.mem_cons_of_mem r0 hr)
      · simp only [updRec, if_neg he, List.mem_cons] at hr
        rcases hr with hr | hr
        · exact h r (by rw [hr]; exact List.mem_cons_self r0 rs)
        · exact ih (fun x hx => h x (List.mem_cons_of_mem r0 hx)) r hr

lemma recsOk_tokStep {st : ScanSt} {t : Tok} (h : recsOk st.recs)
    (ht : ∀ n, t = Tok.call n → ¬ n ∈ ctrlKwNames) :
    recsOk (tokStep st t).recs := by
  cases t with
  | kw k => exact h
  | lb =>
      cases hfr : st.frames with
      | nil =>
          cases hpf : st.pendingFn with
          | none => simpa [tokStep, hfr, hpf] using h
          | some f => simpa [tokStep, hfr, hpf] using recsOk_insertRec f h
      | cons p ps => simpa [tokStep, hfr] using h
  | rb => exact h
  | call c =>
      cases hfr : st.frames with
      | nil => simpa [tokStep, hfr] using h
      | cons f fs =>
          cases hf : f.func with
          | none => simpa [tokStep, hfr, hf] using h
          | some fn =>
              simpa [tokStep, hfr, hf] using
                recsOk_updRec fn c (f.cond || pendCond st.pending)
                  (f.loop || pendLoop st.pending) h (ht c rfl)

lemma flushTok_call {acc : Name} {nx : Option Char} {n : Name}
    (h : Tok.call n ∈ flushTok acc nx) : ¬ n ∈ callExcludedNames := by
  simp only [flushTok] at h
  split at h
  · cases h
  · split at h
    · simp at h
    · split at h
      · simp at h
      · split at h
        · next hcnd =>
            simp only [List.mem_singleton] at h
            cases h
            exact hcnd.2
        · cases h

lemma ctrl_sub_excluded {n : Name} (h : n ∈ ctrlKwNames) :
    n ∈ callExcludedNames := by
  exact List.mem_append_left _ (List.mem_append_left _ h)

lemma normChar_call {st : LineSt} {c : Char} {n : Name}
    (h : Tok.call n ∈ (normChar st c).toks) :
    Tok.call n ∈ st.toks ∨ ¬ n ∈ callExcludedNames := by
  simp only [normChar] at h
  split at h
  · exact Or.inl h
  · split at h
    · simp only [List.mem_append, List.mem_singleton] at h
      rcases h with (h | h) | h
      · exact Or.inl h
      · exact Or.inr (flushTok_call h)
      · cases h
    · split at h
      · simp only [List.mem_append, List.mem_singleton] at h
        rcases h with (h | h) | h
        · exact Or.inl h
        · exact Or.inr (flushTok_call h)
        · cases h
      · split at h
        · simp only [List.mem_append] at h
          rcases h with h | h
          · exact Or.inl h
          · exact Or.inr (flushTok_call h)
        · split at h
          · simp only [List.mem_append] at h
            rcases h with h | h
            · exact Or.inl h
            · exact Or.inr (flushTok_call h)
          · split at h
            · simp only [List.mem_append] at h
              rcases h with h | h
              · exact Or.inl h
              · exact Or.inr (flushTok_call h)
            · simp only [List.mem_append] at h
              rcases h with h | h
              · exact Or.inl h
              · exact Or.inr (flushTok_call h)

lemma lineStep_call {st : LineSt} {c : Char} {n : Name}
    (h : Tok.call n ∈ (lineStep st c).toks) :
    Tok.call n ∈ st.toks ∨ ¬ n ∈ callExcludedNames := by
  cases hm : st.mode <;> simp only [lineStep, hm] at h
  case norm => exact normChar_call h
  case slash =>
      split at h
      · exact Or.inl h
      · split at h
        · exact Or.inl h
        · exact @normChar_call ⟨Mode.norm, st.acc, st.toks⟩ c n h
  case lcom => exact Or.inl h
  case bcom =>
      split at h
      · exact Or.inl h
      · exact Or.inl h
  case bstar =>
      split at h
      · exact Or.inl h
      · split at h
        · exact Or.inl h
        · exact Or.inl h
  case strm =>
      split at h
      · exact Or.inl h
      · split at h
        · exact Or.inl h
        · exact Or.inl h
  case sesc => exact Or.inl h
  case chrm =>
      split at h
      · exact Or.inl h
      · split at h
        · exact Or.inl h
        · exact Or.inl h
  case cesc => exact Or.inl h

lemma foldl_lineStep_call {n : Name} :
    ∀ (l : List Char) (st : LineSt),
      Tok.call n ∈ (l.foldl lineStep st).toks →
      Tok.call n ∈ st.toks ∨ ¬ n ∈ callExcludedNames := by
  intro l
  induction l with
  | nil => intro st h; exact Or.inl h
  | cons c cs ih =>
      intro st h
      rcases ih (lineStep st c) h with h1 | h1
      · exact lineStep_call h1
      · exact Or.inr h1

lemma lineToks_call {bc : Bool} {l : Name} {n : Name}
    (h : Tok.call n ∈ (lineToks bc l).1) : ¬ n ∈ callExcludedNames := by
  simp only [lineToks, List.mem_append] at h
  rcases h with h | h
  · rcases foldl_lineStep_call l (initLineSt bc) h with h1 | h1
    · simp [initLineSt] at h1
    · exact h1
  · exact flushTok_call h

lemma recsOk_foldl_tokStep :
    ∀ (ts : List Tok) (st : ScanSt), recsOk st.recs →
      (∀ t ∈ ts, ∀ n, t = Tok.call n → ¬ n ∈ ctrlKwNames) →
      recsOk (List.foldl tokStep st ts).recs := by
  intro ts
  induction ts with
  | nil => intro st h _; exact h
  | cons t ts ih =>
      intro st h hts
      exact ih (tokStep st t)
        (recsOk_tokStep h (hts t (List.mem_cons_self t ts)))
        (fun t' ht' => hts t' (List.mem_cons_of_mem t ht'))

lemma scanLine_recs_eq (st : ScanSt) (l : Name) :
    ∃ st1 : ScanSt, st1.recs = st.recs ∧
      (scanLine st l).recs =
        (List.foldl tokStep st1 (lineToks st.inBC l).1).recs := by
  by_cases h0 : st.frames.isEmpty = true ∧ st.inBC = false
  · cases hrec : tryRecognize st.prevLines l with
    | some s =>
        refine ⟨{ st with pendingFn := some s.name, prevLines := [] }, rfl, ?_⟩
        simp only [scanLine, if_pos h0, hrec]
        split <;> rfl
    | none =>
        by_cases hb : isBlank l = true
        · refine ⟨st, rfl, ?_⟩
          simp only [scanLine, if_pos h0, hrec, if_pos hb]
          split <;> rfl
        · refine ⟨{ st with prevLines := l :: st.prevLines }, rfl, ?_⟩
          simp only [scanLine, if_pos h0, hrec, if_neg hb]
          split <;> rfl
  · refine ⟨st, rfl, ?_⟩
    simp only [scanLine, if_neg h0]
    split <;> rfl

lemma recsOk_scanLine {st : ScanSt} (l : Name) (h : recsOk st.recs) :
    recsOk (scanLine st l).recs := by
  have hts : ∀ t ∈ (lineToks st.inBC l).1, ∀ n, t = Tok.call n →
      ¬ n ∈ ctrlKwNames := by
    intro t ht n hn hctrl
    subst hn
    exact lineToks_call ht (ctrl_sub_excluded hctrl)
  obtain ⟨st1, h1, h2⟩ := scanLine_recs_eq st l
  rw [h2]
  exact recsOk_foldl_tokStep _ st1 (h1 ▸ h) hts

lemma recsOk_scanAll (lines : List Name) : recsOk (scanAll lines).recs := by
  have : ∀ (ls : List Name) (st : ScanSt), recsOk st.recs →
      recsOk (List.foldl scanLine st ls).recs := by
    intro ls
    induction ls with
    | nil => intro st h; exact h
    | cons l ls ih => intro st h; exact ih (scanLine st l) (recsOk_scanLine l h)
  exact this lines initSt (by intro r hr; cases hr)

lemma strm_skip :
    ∀ (inner : List Char) (st : LineSt), st.mode = Mode.strm →
      (∀ c ∈ inner, ¬ c = '"' ∧ ¬ c = '\\') →
      List.foldl lineStep st inner = st := by
  intro inner
  induction inner with
  | nil => intro st _ _; rfl
  | cons c cs ih =>
      intro st hm hc
      have h1 : lineStep st c = st := by
        have hq := (hc c (List.mem_cons_self c cs)).1
        have hb := (hc c (List.mem_cons_self c cs)).2
        simp [lineStep, hm, hq, hb]
      rw [List.foldl_cons, h1]
      exact ih st hm (fun x hx => hc x (List.mem_cons_of_mem c hx))

/-- Opening a string literal from normal mode: the scanner enters string
mode, flushing any pending identifier. -/

lemma lineStep_quote {st : LineSt} (hm : st.mode = Mode.norm) :
    lineStep st '"' =
      ⟨Mode.strm, [], st.toks ++ flushTok st.acc (some '"')⟩ := by
  simp [lineStep, hm, normChar, isIdentChar]

lemma literal_invisible (bc : Bool) (pre inner post : List Char)
    (hpre : (List.foldl lineStep (initLineSt bc) pre).mode = Mode.norm)
    (hin : ∀ c ∈ inner, ¬ c = '"' ∧ ¬ c = '\\') :
    lineToks bc (pre ++ '"' :: (inner ++ '"' :: post)) =
      lineToks bc (pre ++ '"' :: '"' :: post) := by
  have key : List.foldl lineStep (initLineSt bc) (pre ++ '"' :: (inner ++ '"' :: post)) =
      List.foldl lineStep (initLineSt bc) (pre ++ '"' :: '"' :: post) := by
    rw [List.foldl_append, List.foldl_append, List.foldl_cons, List.foldl_cons]
    rw [lineStep_quote hpre, List.foldl_append]
    rw [strm_skip inner _ rfl hin]
  simp only [lineToks, key]

/-- Backtracking over a name line and then a type line joins exactly the
single-line signature text. -/

lemma tryRecognize_two (t n p : Name)
    (ht : looksLikeBareType t = true) (hn : looksLikeBareType n = true)
    (h1 : parseSigDef p = none) (h2 : parseSigDef (n ++ (' ' :: p)) = none) :
    tryRecognize [n, t] p = parseSigDef (t ++ (' ' :: (n ++ (' ' :: p)))) := by
  simp only [tryRecognize, h1, tryRecognizeGo, hn, if_pos, h2, ht]
  cases hp : parseSigDef (t ++ (' ' :: (n ++ (' ' :: p)))) <;> simp [hp]

/-- Pushing a conditional frame and a loop frame (in either order) on a
function frame and then sighting a fresh callee records it with both the
conditional and the loop flag. -/

lemma both_frames_edge (fn c : Name) (k1 k2 : HdrKind) (hk : ¬ k1 = k2) :
    (List.foldl tokStep
      ⟨[⟨some fn, false, false⟩], none, none, [], [(fn, [])], false⟩
      [Tok.kw k1, Tok.lb, Tok.kw k2, Tok.lb, Tok.call c]).recs =
      [(fn, [⟨c, true, true, startsWithRte c, 1⟩])] := by
  cases k1 <;> cases k2 <;> first
    | exact absurd rfl hk
    | simp [tokStep, pendCond, pendLoop, updRec, addCall]

lemma exBind_ok (s : DfsSt) (f : DfsSt → Except Unit DfsSt) :
    exBind (Except.ok s) f = f s := rfl

lemma exBind_error (e : Unit) (f : DfsSt → Except Unit DfsSt) :
    exBind (Except.error e) f = Except.error e := rfl

/-- The traversal only ever appends cycles it has not reported yet, so the
reported list stays duplicate-free. -/

lemma visit_nodup :
    ∀ (f : Nat) (g : Graph) (path : List Name) (st : DfsSt) (n : Name)
      (st' : DfsSt), visit f g path st n = Except.ok st' →
      st.cycles.Nodup → st'.cycles.Nodup := by
  intro f
  induction f with
  | zero => intro g path st n st' h; cases h
  | succ f ih =>
      intro g path st n st' h hnd
      have fold_nodup : ∀ (ms : List Name) (acc : Except Unit DfsSt) (st1 : DfsSt),
          (ms.foldl (fun acc m =>
            exBind acc (fun s => visit f g (path ++ [n]) s m)) acc) =
              Except.ok st1 →
          (∀ s0, acc = Except.ok s0 → s0.cycles.Nodup) → st1.cycles.Nodup := by
        intro ms
        induction ms with
        | nil => intro acc st1 hfold hacc; exact hacc st1 hfold
        | cons m ms ihm =>
            intro acc st1 hfold hacc
            rw [List.foldl_cons] at hfold
            refine ihm _ st1 hfold ?_
            intro s0 hs0
            cases acc with
            | error e => simp [exBind] at hs0
            | ok sA => exact ih g (path ++ [n]) sA m s0 hs0 (hacc sA rfl)
      simp only [visit] at h
      split at h
      · cases h; exact hnd
      · split at h
        · cases h
          split
          · exact hnd
          · next hmem =>
              simp [List.nodup_append, hnd, hmem]
        · cases hF : (succsOf g n).foldl
              (fun acc m => exBind acc (fun s => visit f g (path ++ [n]) s m))
              (Except.ok st) with
          | error e =>
              rw [hF, exBind_error] at h
              cases h
          | ok st1 =>
              rw [hF, exBind_ok] at h
              cases h
              exact fold_nodup (succsOf g n) (Except.ok st) st1 hF
                (fun s0 h0 => by cases h0; exact hnd)

lemma visitAll_nodup :
    ∀ (ns : List Name) (fuel : Nat) (g : Graph) (st st' : DfsSt),
      visitAll fuel g st ns = Except.ok st' →
      st.cycles.Nodup → st'.cycles.Nodup := by
  intro ns
  induction ns with
  | nil =>
      intro fuel g st st' h hnd
      cases h
      exact hnd
  | cons n ns ih =>
      intro fuel g st st' h hnd
      simp only [visitAll] at h
      split at h
      · cases h
      · next st1 heq =>
          exact ih fuel g st1 st' h (visit_nodup fuel g [] st n st1 heq hnd)

/-- Every reported cycle list is duplicate-free. -/

lemma detectCycles_nodup (g : Graph) : (detectCycles g).Nodup := by
  unfold detectCycles detectCyclesE
  split
  · next heq =>
      split at heq
      · cases heq
      · next st1 h1 =>
          cases heq
          exact visitAll_nodup (nodesOf g) (fuelB g) g ⟨[], []⟩ st1 h1
            List.nodup_nil
  · exact List.nodup_nil

lemma lookupAdj_sub :
    ∀ (rs : List (Name × List Name)) (n m : Name),
      m ∈ lookupAdj rs n → ∃ r ∈ rs, m ∈ r.2 := by
  intro rs
  induction rs with
  | nil => intro n m h; cases h
  | cons r rs ih =>
      intro n m h
      simp only [lookupAdj] at h
      split at h
      · exact ⟨r, List.mem_cons_self r rs, h⟩
      · obtain ⟨r1, hr1, hm⟩ := ih n m h
        exact ⟨r1, List.mem_cons_of_mem r hr1, hm⟩

lemma succs_sub_univ {g : Graph} {n m : Name} (h : m ∈ succsOf g n) :
    m ∈ univOf g := by
  obtain ⟨r, hr, hm⟩ := lookupAdj_sub g.adj n m h
  refine List.mem_dedup.mpr (List.mem_append_right _ ?_)
  exact List.mem_flatten.mpr ⟨r.2, List.mem_map.mpr ⟨r, hr, rfl⟩, hm⟩

lemma nodes_sub_univ {g : Graph} {n : Name} (h : n ∈ nodesOf g) :
    n ∈ univOf g :=
  List.mem_dedup.mpr (List.mem_append_left _ h)

lemma countFree_lt {g : Graph} {n : Name} {path : List Name}
    (hu : n ∈ univOf g) (hp : ¬ n ∈ path) :
    countFree g (path ++ [n]) < countFree g path := by
  unfold countFree
  have hsplit : (univOf g).filter (fun x => decide (¬ x ∈ path ++ [n])) =
      ((univOf g).filter (fun x => decide (¬ x ∈ path))).filter
        (fun x => decide (¬ x = n)) := by
    rw [List.filter_filter]
    refine List.filter_congr ?_
    intro x hx
    by_cases h1 : x ∈ path <;> by_cases h2 : x = n <;>
      simp [h1, h2, List.mem_append]
  rw [hsplit]
  refine List.length_filter_lt_length_iff_exists.mpr ?_
  refine ⟨n, List.mem_filter.mpr ⟨hu, by simp [hp]⟩, by simp⟩

/-- With fuel exceeding the number of names not yet on the path, a visit
cannot run out of fuel. -/

lemma visit_ok :
    ∀ (f : Nat) (g : Graph) (path : List Name) (st : DfsSt) (n : Name),
      n ∈ univOf g → countFree g path < f →
      ∃ st', visit f g path st n = Except.ok st' := by
  intro f
  induction f with
  | zero => intro g path st n _ hc; exact absurd hc (Nat.not_lt_zero _)
  | succ f ih =>
      intro g path st n hu hc
      by_cases hb : n ∈ st.black
      · exact ⟨st, by simp [visit, hb]⟩
      · by_cases hp : n ∈ path
        · exact ⟨if canon (extractCycle path n) ∈ st.cycles then st
            else { st with cycles := st.cycles ++ [canon (extractCycle path n)] },
            by simp [visit, hb, hp]⟩
        · have hlt : countFree g (path ++ [n]) < f := by
            have := countFree_lt hu hp
            omega
          have hfold : ∀ (ms : List Name), (∀ m ∈ ms, m ∈ univOf g) →
              ∀ sA : DfsSt, ∃ st1,
                (ms.foldl (fun acc m =>
                  exBind acc (fun s => visit f g (path ++ [n]) s m))
                  (Except.ok sA)) = Except.ok st1 := by
            intro ms
            induction ms with
            | nil => intro _ sA; exact ⟨sA, rfl⟩
            | cons m ms ihm =>
                intro hms sA
                obtain ⟨s1, hs1⟩ :=
                  ih g (path ++ [n]) sA m (hms m (List.mem_cons_self m ms)) hlt
                simp only [List.foldl_cons, exBind_ok]
                rw [hs1]
                exact ihm (fun x hx => hms x (List.mem_cons_of_mem m hx)) s1
          obtain ⟨st1, h1⟩ :=
            hfold (succsOf g n) (fun m hm => succs_sub_univ hm) st
          refine ⟨{ st1 with black := n :: st1.black }, ?_⟩
          simp only [visit]
          rw [if_neg hb, if_neg hp, h1, exBind_ok]

lemma countFree_nil (g : Graph) : countFree g [] = (univOf g).length := by
  simp [countFree]

lemma visitAll_ok :
    ∀ (ns : List Name) (g : Graph) (st : DfsSt), (∀ x ∈ ns, x ∈ univOf g) →
      ∃ st', visitAll (fuelB g) g st ns = Except.ok st' := by
  intro ns
  induction ns with
  | nil => intro g st _; exact ⟨st, rfl⟩
  | cons n ns ih =>
      intro g st hns
      have hc : countFree g [] < fuelB g := by
        rw [countFree_nil]
        simp [fuelB]
      obtain ⟨st1, h1⟩ :=
        visit_ok (fuelB g) g [] st n (hns n (List.mem_cons_self n ns)) hc
      obtain ⟨st', h'⟩ := ih g st1 (fun x hx => hns x (List.mem_cons_of_mem n hx))
      refine ⟨st', ?_⟩
      simp only [visitAll, h1]
      exact h'

/-- C1: for a caller sighting the same callee both unconditionally and
inside a conditional block (in either order, and more generally in any
sequence of sightings containing an unconditional one), aggregation keeps
exactly one CallEdge for the pair, with conditional=false, the occurrence
count incremented for each sighting, and isRte=true exactly for an
RTE-prefixed callee; concretely, the `test_rte_update_conditional` fixture
yields one edge with conditional=false, isRte=true, count=2. -/
theorem claim_C1 :
    (∀ (c : Name) (ss : List (Bool × Bool)), (∃ s ∈ ss, s.1 = false) →
      aggregate c ss =
        [⟨c, false, ss.any (fun x => x.2), startsWithRte c, ss.length⟩]) ∧
    (scanStrs rteUpdCondLines).recs =
      [(("test_rte_update_conditional".data),
        [⟨("Rte_Call_StartOperation".data), false, false, true, 2⟩])] :=
  ⟨fun c ss h => aggregate_mixed c ss h, by decide⟩

/-- Witness for C1 at a concrete callee and sighting sequence. -/
theorem claim_C1_witness :
    aggregate ("f".data) [(true, false), (false, true)] =
      [⟨("f".data), false, true, startsWithRte ("f".data), 2⟩] :=
  claim_C1.1 ("f".data) [(true, false), (false, true)]
    ⟨(false, true), by decide, rfl⟩

/-- C2: cycle detection reports each distinct cycle exactly once (the
reported list is duplicate-free for every graph); on the circular fixture
the two-node cycle and the three-node cycle X→Y→Z→X are each reported once
in canonical rotation, the entry edge into the fully-visited node
Circular_A producing no extra report, and a direct self-call is reported
as the single-node cycle. -/
theorem claim_C2 :
    (∀ g : Graph, (detectCycles g).Nodup) ∧
    detectCycles (graphOf (scanStrs circFixtureLines)) =
      [[("Circular_A".data), ("Circular_B".data)],
       [("Cycle_X".data), ("Cycle_Y".data), ("Cycle_Z".data)]] ∧
    detectCycles (graphOf (scanStrs selfRecLines)) =
      [[("recursive_function".data)]] :=
  ⟨detectCycles_nodup, by decide, by decide⟩

/-- C3: after scanning any input, every FunctionRecord's callee mapping
has at most one CallEdge per callee name; concretely two calls to
`Helper_Function` in one body produce exactly one edge with occurrence
count 2. -/
theorem claim_C3 :
    (∀ (lines : List Name), ∀ r ∈ (scanAll lines).recs,
      (r.2.map CallEdge.callee).Nodup) ∧
    (scanStrs dupCallLines).recs =
      [(("test_regular_call_duplicate".data),
        [⟨("Helper_Function".data), false, false, false, 2⟩])] :=
  ⟨fun lines r hr => (recsOk_scanAll lines r hr).1, by decide⟩

/-- Witness for C3 on the duplicate-call fixture. -/
theorem claim_C3_witness :
    (((("test_regular_call_duplicate".data),
        [(⟨("Helper_Function".data), false, false, false, 2⟩ : CallEdge)]) :
       Name × List CallEdge).2.map CallEdge.callee).Nodup :=
  claim_C3.1 (dupCallLines.map String.data)
    (("test_regular_call_duplicate".data),
      [⟨("Helper_Function".data), false, false, false, 2⟩]) (by decide)

/-- C4: a call whose enclosing frames include both an if frame and a
for/while frame, in either nesting order, gets conditional=true and
loop=true on its (single-occurrence) edge; concretely both the
loop-inside-if fixture and the if-inside-loop fixture produce an edge with
both flags set. -/
theorem claim_C4 :
    (∀ (fn c : Name) (k1 k2 : HdrKind), ¬ k1 = k2 →
      (List.foldl tokStep
        ⟨[⟨some fn, false, false⟩], none, none, [], [(fn, [])], false⟩
        [Tok.kw k1, Tok.lb, Tok.kw k2, Tok.lb, Tok.call c]).recs =
        [(fn, [⟨c, true, true, startsWithRte c, 1⟩])]) ∧
    (scanStrs loopInIfLines).recs =
      [(("test_loop_in_if".data),
        [⟨("Process_Element".data), true, true, false, 1⟩])] ∧
    (scanStrs rteCondLoopLines).recs =
      [(("test_rte_conditional_loop".data),
        [⟨("Rte_Call_Operation".data), true, true, true, 1⟩])] :=
  ⟨both_frames_edge, by decide, by decide⟩

/-- Witness for C4 pushing a conditional frame then a loop frame. -/
theorem claim_C4_witness :
    (List.foldl tokStep
      ⟨[⟨some ("f".data), false, false⟩], none, none, [], [(("f".data), [])],
        false⟩
      [Tok.kw HdrKind.cond, Tok.lb, Tok.kw HdrKind.loop, Tok.lb,
        Tok.call ("g".data)]).recs =
      [(("f".data),
        [⟨("g".data), true, true, startsWithRte ("g".data), 1⟩])] :=
  claim_C4.1 ("f".data) ("g".data) HdrKind.cond HdrKind.loop (by decide)

/-- C5: a signature split over three lines (bare-type-shaped return-type
line, bare-type-shaped name line, parameter line) is recognized by
backtracking exactly as the single-line signature obtained by joining the
three lines; concretely the `MyFunction` fixture scans to the same
FunctionRecord (same name, qualifiers and call edges) as its single-line
equivalent. -/
theorem claim_C5 :
    (∀ t n p : Name, looksLikeBareType t = true → looksLikeBareType n = true →
      parseSigDef p = none → parseSigDef (n ++ (' ' :: p)) = none →
      tryRecognize [n, t] p = parseSigDef (t ++ (' ' :: (n ++ (' ' :: p))))) ∧
    (scanStrs multiBacktrackLines).recs = (scanStrs singleBacktrackLines).recs ∧
    (scanStrs multiBacktrackLines).recs = [(("MyFunction".data), [])] ∧
    tryRecognize [("MyFunction".data), ("const uint32_t".data)]
        ("(uint8 param1, uint16 param2)".data) =
      some ⟨("MyFunction".data), []⟩ :=
  ⟨tryRecognize_two, by decide, by decide, by decide⟩

/-- Witness for C5 on the three fixture lines. -/
theorem claim_C5_witness :
    tryRecognize [("MyFunction".data), ("const uint32_t".data)]
        ("(uint8 param1, uint16 param2)".data) =
      parseSigDef (("const uint32_t".data) ++
        (' ' :: (("MyFunction".data) ++
          (' ' :: ("(uint8 param1, uint16 param2)".data))))) :=
  claim_C5.1 ("const uint32_t".data) ("MyFunction".data)
    ("(uint8 param1, uint16 param2)".data)
    (by decide) (by decide) (by decide) (by decide)

/-- C6: text inside a string literal never contributes tokens — replacing
any literal's content with the empty literal leaves the token stream of
the line unchanged, so call-shaped text inside a literal is never
extracted while genuine calls on the same line still are; concretely the
printf fixture line extracts exactly the call `printf`, and the
`function_with_strings` body yields edges only for printf, log_message
and get_value. -/
theorem claim_C6 :
    (∀ (bc : Bool) (pre inner post : List Char),
      (List.foldl lineStep (initLineSt bc) pre).mode = Mode.norm →
      (∀ c ∈ inner, ¬ c = '"' ∧ ¬ c = '\\') →
      lineToks bc (pre ++ '"' :: (inner ++ '"' :: post)) =
        lineToks bc (pre ++ '"' :: '"' :: post)) ∧
    callNamesOf (lineToks false printfLine).1 = [("printf".data)] ∧
    (scanStrs strLitLines).recs =
      [(("function_with_strings".data),
        [⟨("printf".data), false, false, false, 1⟩,
         ⟨("log_message".data), false, false, false, 1⟩,
         ⟨("get_value".data), false, false, false, 1⟩])] :=
  ⟨literal_invisible, by decide, by decide⟩

/-- Witness for C6 on a literal containing call-shaped text. -/
theorem claim_C6_witness :
    lineToks false (("printf(".data) ++ '"' ::
        ((("This has (parentheses) in it".data)) ++ '"' :: (");".data))) =
      lineToks false (("printf(".data) ++ '"' :: '"' :: (");".data)) :=
  claim_C6.1 false ("printf(".data) ("This has (parentheses) in it".data)
    (");".data) (by decide) (by decide)

/-- C7: no CallEdge is ever recorded whose callee name is one of if, for,
while, switch, return, sizeof, on any input; concretely the
`control_structures` fixture, containing every control keyword alongside
real calls, records only the seven genuine callees. -/
theorem claim_C7 :
    (∀ (lines : List Name), ∀ r ∈ (scanAll lines).recs, ∀ e ∈ r.2,
      ¬ e.callee ∈ ctrlKwNames) ∧
    (scanStrs ctrlStructLines).recs =
      [(("control_structures".data),
        [⟨("handle_large_value".data), true, false, false, 1⟩,
         ⟨("handle_small_value".data), false, false, false, 1⟩,
         ⟨("process_iteration".data), false, true, false, 1⟩,
         ⟨("decrement_value".data), false, true, false, 1⟩,
         ⟨("handle_case_1".data), false, false, false, 1⟩,
         ⟨("handle_case_2".data), false, false, false, 1⟩,
         ⟨("handle_default".data), false, false, false, 1⟩])] :=
  ⟨fun lines r hr e he => (recsOk_scanAll lines r hr).2 e he, by decide⟩

/-- Witness for C7 on a one-call body. -/
theorem claim_C7_witness :
    ¬ (⟨("g".data), false, false, false, 1⟩ : CallEdge).callee ∈
      ctrlKwNames :=
  claim_C7.1 ([("void f(void) \x7b".data), ("    g();".data), ("\x7d".data)])
    (("f".data), [⟨("g".data), false, false, false, 1⟩]) (by decide)
    ⟨("g".data), false, false, false, 1⟩ (by decide)

/-- C8: malformed control headers — an if with no parenthesized condition,
a for with no parenthesized header, a while whose multi-line condition
never closes its parenthesis — do not abort the scan: each still yields a
best-effort frame of the right kind (the calls inside carry the
conditional resp. loop flag), and a subsequent well-formed function is
still extracted. -/
theorem claim_C8 :
    (scanStrs malformedLines).recs =
      [(("test_if_without_paren".data),
        [⟨("do_something".data), true, false, false, 1⟩]),
       (("test_for_without_paren".data),
        [⟨("Process_Element".data), false, true, false, 1⟩]),
       (("test_while_no_closing_paren".data),
        [⟨("Func1".data), false, true, false, 1⟩]),
       (("after_malformed".data),
        [⟨("Later_Call".data), false, false, false, 1⟩])] := by
  decide

/-- C9: cycle detection is total — for every finite call graph, including
self-edges and directed cycles, the fuel-bounded traversal returns a cycle
list and never the failure outcome. -/
theorem claim_C9 (g : Graph) : ∃ cs, detectCyclesE g = Except.ok cs := by
  obtain ⟨st', h⟩ :=
    visitAll_ok (nodesOf g) g ⟨[], []⟩ (fun x hx => nodes_sub_univ hx)
  exact ⟨st'.cycles, by simp only [detectCyclesE, h]⟩

/-- C10: a call forming the braceless body of an if statement is still
extracted as an edge of the enclosing function, with conditional=true,
even though no brace-delimited frame is pushed for the if. -/
theorem claim_C10 :
    (scanStrs ifFallbackLines).recs =
      [(("test_if_fallback_no_brace".data),
        [⟨("Func1".data), true, false, false, 1⟩])] := by
  decide


end CallTree
